import Mathlib

/-!
Verification of the CMSIS debug adapter core (breakpoint reconciliation,
variable-reference addressing, variable resolution, stop classification,
and the external-server process supervisor) against its specification.

The definitions below are a shallow embedding of the TypeScript sources
`cmsis-debug-session.ts` and `abstract-server.ts`.  Strings are modelled
as Lean strings, buffers as lists of characters, JavaScript numbers as
Nat/Int, absent (undefined/null) values as Option, asynchronous backend
replies as explicit oracle arguments, and emitted events / issued backend
commands as accumulated lists.
-/

/-! ## JavaScript primitives used by the sources -/

/-- Characters matched by the regex class backslash-s (whitespace). -/
def isJsSpace (c : Char) : Bool :=
  c = ' ' || c = '\t' || c = '\n' || c = '\r' || c = '\x0b' || c = '\x0c'

/-- Value of a leading run of decimal digits; none when there is no leading
digit.  This is the digit-consuming core of JavaScript parseInt with radix
10, which stops at the first non-digit character. -/
def digitsVal (cs : List Char) : Option Nat :=
  let ds := cs.takeWhile Char.isDigit
  if ds.isEmpty then none
  else some (ds.foldl (fun a c => a * 10 + (c.toNat - '0'.toNat)) 0)

/-- JavaScript parseInt(s, 10) on a list of characters: skip leading
whitespace, optional sign, then the longest digit prefix; none models NaN. -/
def jsParseInt (cs : List Char) : Option Int :=
  let cs := cs.dropWhile isJsSpace
  match cs with
  | '-' :: rest => (digitsVal rest).map (fun n => -(n : Int))
  | '+' :: rest => (digitsVal rest).map (fun n => (n : Int))
  | _ => (digitsVal cs).map (fun n => (n : Int))

/-- JavaScript truthiness of a possibly-absent number: undefined, null and 0
are falsy, every other number is truthy (the !!code test of onExit). -/
def jsTruthyNum : Option Int → Bool
  | none => false
  | some n => n ≠ 0

/-- JavaScript truthiness of a possibly-absent string: undefined and the
empty string are falsy. -/
def jsTruthyStr : Option String → Bool
  | none => false
  | some s => s ≠ ""

/-! ## Variable-reference addressing (cmsis-debug-session.ts)

Constants GLOBAL_HANDLE_ID, STATIC_HANDLES_START, STATIC_HANDLES_FINISH and
the dispatch of scopesRequest / variablesRequest over them. -/

def GLOBAL_HANDLE_ID : Nat := 0xFE

def STATIC_HANDLES_START : Nat := 0x010000

def STATIC_HANDLES_FINISH : Nat := 0x01FFFF

/-- Handle returned for the Static scope by scopesRequest:
STATIC_HANDLES_START + parseInt(args.frameId, 10), with no range check on
the frame handle. -/
def staticScopeHandle (frameId : Nat) : Nat :=
  STATIC_HANDLES_START + frameId

/-- One entry of the scopes response. -/
structure ScopeEntry where
  name : String
  variablesReference : Nat
  expensive : Bool
deriving Repr, DecidableEq

/-- Body of the scopes response: Local (freshly created table handle),
Global (fixed constant), Static (range-encoded frame handle). -/
def scopesRequest (localHandle : Nat) (frameId : Nat) : List ScopeEntry :=
  [ ⟨"Local", localHandle, false⟩,
    ⟨"Global", GLOBAL_HANDLE_ID, false⟩,
    ⟨"Static", staticScopeHandle frameId, false⟩ ]

/-- Descriptor stored in the growable handle table (variableHandles):
either a frame reference or an object reference. -/
inductive HandleRef where
  | frame (frameHandle : Nat)
  | object (frameHandle : Nat) (varobjName : String)
deriving Repr, DecidableEq

/-- Resolution chosen by variablesRequest for a variablesReference. -/
inductive VarRefClass where
  | globals
  | statics (frameHandle : Nat)
  | tableFrame (frameHandle : Nat)
  | tableObject (frameHandle : Nat) (varobjName : String)
  | unresolvedRef
deriving Repr, DecidableEq

/-- Dispatch of variablesRequest on args.variablesReference: the fixed
global handle first, then the static range (inverted by subtracting
STATIC_HANDLES_START), and otherwise the handle-table lookup. -/
def variablesRequestDispatch (table : Nat → Option HandleRef) (h : Nat) :
    VarRefClass :=
  if h = GLOBAL_HANDLE_ID then .globals
  else if STATIC_HANDLES_START ≤ h ∧ h ≤ STATIC_HANDLES_FINISH then
    .statics (h - STATIC_HANDLES_START)
  else
    match table h with
    | some (.frame f) => .tableFrame f
    | some (.object f v) => .tableObject f v
    | none => .unresolvedRef

/-- The handle-table fallback path of variablesRequest, taken when the
reference is neither the global constant nor inside the static range. -/
def tableResolve (table : Nat → Option HandleRef) (h : Nat) : VarRefClass :=
  match table h with
  | some (.frame f) => .tableFrame f
  | some (.object f v) => .tableObject f v
  | none => .unresolvedRef

/-! ## Process supervisor (abstract-server.ts) -/

/-- Events emitted by the supervisor that the claims observe.  resolved
models calling the pending launchResolve callback. -/
inductive SrvEvent where
  | exit (code : Option Int) (signal : String)
  | error (msg : String)
  | output (data : List Char)
  | resolved
deriving Repr, DecidableEq

def SrvEvent.isExit : SrvEvent → Bool
  | .exit _ _ => true
  | _ => false

def SrvEvent.isError : SrvEvent → Bool
  | .error _ => true
  | _ => false

def SrvEvent.isResolved : SrvEvent → Bool
  | .resolved => true
  | _ => false

/-- Message text of the abnormal-exit error event. -/
def exitErrorMsg (n : Int) : String :=
  "GDB server stopped unexpectedly with exit code " ++ toString n

/-- onExit(code, signal): emit exit, then, when the code is truthy
(nonzero and non-null), emit the abnormal-exit error. -/
def onExit (code : Option Int) (signal : String) : List SrvEvent :=
  [SrvEvent.exit code signal] ++
    (match code with
     | some n => if n ≠ 0 then [SrvEvent.error (exitErrorMsg n)] else []
     | none => [])

/-- Index of the last newline character of a buffer (lastIndexOf). -/
def lastNl : List Char → Option Nat
  | [] => none
  | c :: cs =>
    match lastNl cs with
    | some i => some (i + 1)
    | none => if c = '\n' then some 0 else none

/-- onData(chunk, stream): append the chunk to the stream buffer; if the
buffer now contains a newline, emit a single output event carrying
everything before the last newline (also fed once to handleData) and keep
only what follows it.  Returns the new buffer and the emitted payloads. -/
def onData (buffer : List Char) (chunk : List Char) :
    List Char × List (List Char) :=
  let buf := buffer ++ chunk
  match lastNl buf with
  | none => (buf, [])
  | some e => (buf.drop (e + 1), [buf.take e])

/-- Mutable supervisor state observed by handleData: whether the launch
promise callbacks are still set and whether the startup timer is armed. -/
structure ServerState where
  launchPending : Bool
  timerSet : Bool
deriving Repr, DecidableEq

/-- First line of a message (data.split(EOL)[0], with EOL a newline). -/
def firstLine (s : String) : String :=
  String.mk (s.data.takeWhile (fun c => c ≠ '\n'))

/-- handleData(data): when a launch promise is pending and the pluggable
serverStarted predicate matches, clear the timer, call launchResolve and
clear both promise callbacks; independently, when serverError matches,
emit an error with the first line of the data. -/
def handleData (started serverErr : String → Bool) (st : ServerState)
    (data : String) : ServerState × List SrvEvent :=
  let r1 :=
    if st.launchPending && started data then
      ((⟨false, false⟩ : ServerState), [SrvEvent.resolved])
    else (st, ([] : List SrvEvent))
  let evs2 := if serverErr data then [SrvEvent.error (firstLine data)] else []
  (r1.1, r1.2 ++ evs2)

/-- Feed a sequence of already-extracted lines to handleData, threading the
supervisor state and concatenating emitted events. -/
def runLines (started serverErr : String → Bool) (st : ServerState) :
    List String → ServerState × List SrvEvent
  | [] => (st, [])
  | l :: ls =>
    ((runLines started serverErr (handleData started serverErr st l).1 ls).1,
     (handleData started serverErr st l).2 ++
       (runLines started serverErr (handleData started serverErr st l).1 ls).2)

/-! ## Stop classifier (handleGDBStopped, cmsis-debug-session.ts) -/

/-- Raw asynchronous stop notification fields as read by handleGDBStopped. -/
structure StopNotification where
  reason : String
  threadIdStr : Option String
  stoppedThreads : Option String
  signalName : Option String
  bkptno : Option String
deriving Repr, DecidableEq

/-- Front-end-visible actions performed by the stop classifier. -/
inductive StopAction where
  | terminated
  | output (msg : String)
  | execContinue
  | stopped (kind : String) (threadId : Option Int) (allThreads : Bool)
  | resolvePause
deriving Repr, DecidableEq

def StopAction.isStopped : StopAction → Bool
  | .stopped _ _ _ => true
  | _ => false

def StopAction.isExecContinue : StopAction → Bool
  | .execContinue => true
  | _ => false

/-- Indexing this.logPointMessages[result.bkptno]: undefined key or missing
entry yields undefined. -/
def lookupLogMessage (tbl : List (String × String)) :
    Option String → Option String
  | none => none
  | some k => tbl.lookup k

/-- handleGDBStopped: dispatch a stop notification to events and follow-up
commands.  A breakpoint-hit whose id maps to a truthy (nonempty) log
message emits the message and a resume instead of a stop event;
signal-received additionally calls the pending waitPaused callback. -/
def handleGDBStopped (tbl : List (String × String)) (waitPaused : Bool)
    (r : StopNotification) : List StopAction :=
  let tid := jsParseInt (r.threadIdStr.getD "").data
  let allStopped :=
    match r.stoppedThreads with
    | some s => s == "all"
    | none => false
  if r.reason = "exited" ∨ r.reason = "exited-normally" then
    [.terminated]
  else if r.reason = "breakpoint-hit" then
    match lookupLogMessage tbl r.bkptno with
    | some m =>
      if m ≠ "" then [.output m, .execContinue]
      else [.stopped "breakpoint" tid allStopped]
    | none => [.stopped "breakpoint" tid allStopped]
  else if r.reason = "end-stepping-range" ∨ r.reason = "function-finished" then
    [.stopped "step" tid allStopped]
  else if r.reason = "signal-received" then
    let name :=
      match r.signalName with
      | some s => if s ≠ "" then s else "signal"
      | none => "signal"
    [.stopped name tid allStopped] ++ (if waitPaused then [.resolvePause] else [])
  else
    [.stopped "generic" tid allStopped]

/-! ## Variable resolver (getVariables, cmsis-debug-session.ts)

The varManager collaborator is external to these sources; its getVar/addVar
interface is modelled as an association list keyed by
(frameId, threadId, depth, displayName). -/

structure VarKey where
  frameId : Int
  threadId : Int
  depth : Int
  name : String
deriving Repr, DecidableEq

/-- Tracked-variable object stored by the variable manager. -/
structure VarObj where
  varname : String
  value : Option String
  type : Option String
  numchild : String
deriving Repr, DecidableEq

/-- One element of the changelist of a var-update reply. -/
structure VarUpdateItem where
  name : String
  in_scope : String
  value : Option String
deriving Repr, DecidableEq

/-- Reply of a var-create command. -/
structure VarCreateResponse where
  varname : String
  value : Option String
  type : Option String
  numchild : String
deriving Repr, DecidableEq

/-- Object added to the variable manager for a var-create reply (addVar). -/
def mkVarObj (r : VarCreateResponse) : VarObj :=
  ⟨r.varname, r.value, r.type, r.numchild⟩

/-- Backend commands issued by the variable resolver. -/
inductive VarCmd where
  | varUpdate (name : String)
  | varCreate (name : String) (expression : String)
deriving Repr, DecidableEq

def VarCmd.isCreate : VarCmd → Bool
  | .varCreate _ _ => true
  | _ => false

/-- Variable returned by the resolver; hasChildren models whether a fresh
object handle is allocated (parseInt(numchild, 10) greater than 0) or the
sentinel 0 is returned. -/
structure DapVariable where
  name : String
  value : String
  type : Option String
  hasChildren : Bool
deriving Repr, DecidableEq

def mkDapVariable (expression : String) (g : VarObj) : DapVariable :=
  ⟨expression,
   (match g.value with | some v => v | none => "<unknown>"),
   g.type,
   (match jsParseInt g.numchild.data with
    | some n => decide (0 < n)
    | none => false)⟩

/-- Overwrite the object stored under a key (the in-place mutation
global.value = update.value of the object held by the manager). -/
def cacheSet (cache : List (VarKey × VarObj)) (k : VarKey) (v : VarObj) :
    List (VarKey × VarObj) :=
  cache.map (fun p => if p.1 = k then (k, v) else p)

structure GetVariablesOut where
  cmds : List VarCmd
  cache : List (VarKey × VarObj)
  result : DapVariable
deriving Repr, DecidableEq

/-- getVariables(frame, name, expression, depth): cache hit issues a
var-update and overwrites the cached value only when the first changelist
entry is present, in scope, and names the cached backend variable; cache
miss issues a var-create and inserts the reply under the key.  Backend
replies are passed as oracle arguments. -/
def getVariables (cache : List (VarKey × VarObj))
    (updChangelist : List VarUpdateItem) (createResp : VarCreateResponse)
    (frameId threadId : Int) (name expression : String) (depth : Int) :
    GetVariablesOut :=
  let key : VarKey := ⟨frameId, threadId, depth, name⟩
  match cache.lookup key with
  | some g =>
    match updChangelist.head? with
    | some u =>
      if u.in_scope = "true" ∧ u.name = g.varname then
        let g1 := { g with value := u.value }
        ⟨[VarCmd.varUpdate name], cacheSet cache key g1, mkDapVariable expression g1⟩
      else
        ⟨[VarCmd.varUpdate name], cache, mkDapVariable expression g⟩
    | none =>
      ⟨[VarCmd.varUpdate name], cache, mkDapVariable expression g⟩
  | none =>
    let g := mkVarObj createResp
    ⟨[VarCmd.varCreate name expression], (key, g) :: cache,
     mkDapVariable expression g⟩

/-! ## Breakpoint reconciler (setBreakPointsRequest, cmsis-debug-session.ts) -/

/-- Desired breakpoint of the front-end request (args.breakpoints entry). -/
structure VsBreakpoint where
  line : Nat
  condition : Option String
  hitCondition : Option String
  logMessage : Option String
deriving Repr, DecidableEq

/-- Installed breakpoint as reported by the backend break list; line none
models an absent or empty line field (falsy in the source's check). -/
structure GdbBreakpoint where
  number : String
  fullname : String
  line : Option Nat
  cond : Option String
deriving Repr, DecidableEq

/-- Condition normalisation cond OR undefined: the empty string becomes
undefined so that absent and empty conditions compare equal. -/
def normCond : Option String → Option String
  | some "" => none
  | c => c

/-- Breakpoint reported back to the front end (createActual): id is
parseInt(number, 10) (none models NaN), line defaults to 0 when absent. -/
structure ActualBreakpoint where
  id : Option Int
  line : Nat
  verified : Bool
deriving Repr, DecidableEq

def createActual (g : GdbBreakpoint) : ActualBreakpoint :=
  ⟨jsParseInt g.number.data, g.line.getD 0, true⟩

/-- State threaded through the loop over the backend break list: delete
candidates, not-yet-matched desired breakpoints, the response list, and the
log-point registrations (most recent assignment first). -/
structure Phase1State where
  deletes : List String
  inserts : List VsBreakpoint
  actual : List ActualBreakpoint
  logMsgs : List (String × String)
deriving Repr, DecidableEq

/-- A desired entry matches an installed entry when the lines agree and the
normalised conditions agree (the filter predicate of the source, negated:
the source keeps an entry when the line or the condition differs). -/
def bpMatch (line : Nat) (tableCond : Option String) (v : VsBreakpoint) : Bool :=
  v.line == line && normCond v.condition == tableCond

/-- Processing of one entry of the backend break list: skipped unless its
file matches and it has a line; otherwise mark it for deletion when no
desired entry shares its line, and consume every desired entry matching by
line and condition, keeping the installed entry in the response and
registering the log message of the first desired entry at that line. -/
def phase1Step (file : String) (breakpoints : List VsBreakpoint)
    (st : Phase1State) (g : GdbBreakpoint) : Phase1State :=
  match g.line with
  | none => st
  | some line =>
    if g.fullname = file then
      let bp := breakpoints.find? (fun v => v.line == line)
      let deletes :=
        if bp.isNone then st.deletes ++ [g.number] else st.deletes
      let tableCond := normCond g.cond
      let matched := st.inserts.filter (bpMatch line tableCond)
      let inserts := st.inserts.filter (fun v => !(bpMatch line tableCond v))
      let actual := st.actual ++ matched.map (fun _ => createActual g)
      let logMsgs :=
        (match bp with
         | some b =>
           match b.logMessage with
           | some m =>
             if m ≠ "" then matched.map (fun _ => (g.number, m)) else []
           | none => []
         | none => []) ++ st.logMsgs
      ⟨deletes, inserts, actual, logMsgs⟩
    else st

/-- Loop of phase 1 over the backend break list. -/
def phase1 (file : String) (breakpoints : List VsBreakpoint) :
    List GdbBreakpoint → Phase1State → Phase1State
  | [], st => st
  | g :: gs, st => phase1 file breakpoints gs (phase1Step file breakpoints st g)

/-- Initial phase-1 state: inserts starts as a copy of the request list. -/
def phase1Init (breakpoints : List VsBreakpoint) : Phase1State :=
  ⟨[], breakpoints, [], []⟩

/-- Outcome of parsing one optional hit-count string. -/
inductive HitAction where
  | install (temporary : Bool) (ignoreCount : Option Int)
  | skip (diagnostic : String)
deriving Repr, DecidableEq

def hitDiagnostic (hc : String) : String :=
  "Unable to decode expression: " ++ hc

/-- Replacement by the global regex matching whitespace or a greater-than
sign: every such character is removed. -/
def stripIgnoreCount (cs : List Char) : List Char :=
  cs.filter (fun c => !(isJsSpace c || c = '>'))

/-- hitCondition.startsWith of a greater-than sign: first character test. -/
def startsWithGt : List Char → Bool
  | '>' :: _ => true
  | _ => false

/-- Hit-condition handling of the insert loop: no hit condition installs a
non-temporary breakpoint with no ignore count; otherwise temporary is set
iff the string does not start with a greater-than sign, the ignore count is
parseInt of the stripped string, and a NaN result skips the entry with a
diagnostic. -/
def parseHitCondition : Option String → HitAction
  | none => .install false none
  | some hc =>
    match jsParseInt (stripIgnoreCount hc.data) with
    | none => .skip (hitDiagnostic hc)
    | some n => .install (!(startsWithGt hc.data)) (some n)

/-- Backend commands issued by the reconciliation. -/
inductive ReconCmd where
  | breakList
  | breakInsert (file : String) (line : Nat) (condition : Option String)
      (temporary : Bool) (ignoreCount : Option Int)
  | breakDelete (numbers : List String)
deriving Repr, DecidableEq

def ReconCmd.isBreakInsert : ReconCmd → Bool
  | .breakInsert _ _ _ _ _ => true
  | _ => false

def ReconCmd.isBreakDelete : ReconCmd → Bool
  | .breakDelete _ => true
  | _ => false

/-- Front-end events emitted by the reconciliation (diagnostics). -/
inductive ReconEvent where
  | output (msg : String)
deriving Repr, DecidableEq

/-- Output of the insert loop. -/
structure Phase2Out where
  cmds : List ReconCmd
  events : List ReconEvent
  actual : List ActualBreakpoint
  logMsgs : List (String × String)
deriving Repr, DecidableEq

/-- Placeholder backend reply used only past the oracle list. -/
def defaultGdbBp : GdbBreakpoint := ⟨"0", "", none, none⟩

/-- Insert loop (phase 2): for each remaining desired breakpoint, parse the
hit condition; a skip emits one diagnostic and continues with the rest, an
install issues one break-insert carrying the unnormalised condition and the
parsed temporary/ignore-count, appends the backend reply to the response,
and registers a truthy log message under the reply's id.  resps is the
oracle of backend replies, consumed one per issued insert. -/
def phase2 (file : String) :
    List VsBreakpoint → List GdbBreakpoint → Phase2Out
  | [], _ => ⟨[], [], [], []⟩
  | v :: rest, resps =>
    match parseHitCondition v.hitCondition with
    | .skip d =>
      let out := phase2 file rest resps
      ⟨out.cmds, .output d :: out.events, out.actual, out.logMsgs⟩
    | .install temporary ignoreCount =>
      let resp := resps.headD defaultGdbBp
      let out := phase2 file rest resps.tail
      ⟨.breakInsert file v.line v.condition temporary ignoreCount :: out.cmds,
       out.events,
       createActual resp :: out.actual,
       (match v.logMessage with
        | some m => if m ≠ "" then (resp.number, m) :: out.logMsgs
          else out.logMsgs
        | none => out.logMsgs)⟩

/-- Result of one reconciliation pass. -/
structure ReconResult where
  cmds : List ReconCmd
  events : List ReconEvent
  actual : List ActualBreakpoint
  logMsgs : List (String × String)
deriving Repr, DecidableEq

/-- setBreakPointsRequest for one file (after the optional pause): query
the break list, run phase 1 over it, run the insert loop on the survivors,
and finally issue a single batch delete only when deletions were marked. -/
def setBreakPointsRequest (file : String) (breakpoints : List VsBreakpoint)
    (gdbbps : List GdbBreakpoint) (resps : List GdbBreakpoint) : ReconResult :=
  let p1 := phase1 file breakpoints gdbbps (phase1Init breakpoints)
  let p2 := phase2 file p1.inserts resps
  ⟨ReconCmd.breakList :: p2.cmds ++
     (if p1.deletes.isEmpty then [] else [ReconCmd.breakDelete p1.deletes]),
   p2.events,
   p1.actual ++ p2.actual,
   p2.logMsgs ++ p1.logMsgs⟩

/-- Spec-side per-line extraction: the list of all complete
newline-terminated lines of a buffer, the trailing partial line dropped.
Modelled from the claim's words for comparison with onData. -/
def splitCompleteLines : List Char → List (List Char)
  | [] => []
  | c :: cs =>
    if c = '\n' then [] :: splitCompleteLines cs
    else
      match splitCompleteLines cs with
      | [] => []
      | l :: ls => (c :: l) :: ls

/-- Spec-side form of a bare count: a nonempty string of decimal digits.
Modelled from the claim's words for comparison with parseHitCondition. -/
def isBareCount (s : String) : Bool :=
  !s.data.isEmpty && s.data.all Char.isDigit

/-- Spec-side form of a greater-than-prefixed count: a greater-than sign,
optional whitespace, then a bare count.  Modelled from the claim's words
for comparison with parseHitCondition. -/
def isGtPrefixedCount (s : String) : Bool :=
  match s.data with
  | '>' :: rest =>
    let digits := rest.dropWhile isJsSpace
    !digits.isEmpty && digits.all Char.isDigit
  | _ => false

/-- Key of a desired breakpoint for the match of phase 1: line and
normalised condition. -/
def vkey (v : VsBreakpoint) : Nat × Option String :=
  (v.line, normCond v.condition)

/-- Key of an installed breakpoint for the match of phase 1: parsed line
(defaulting to 0) and normalised condition. -/
def gkey (g : GdbBreakpoint) : Nat × Option String :=
  (g.line.getD 0, normCond g.cond)

/-! ## Theorems -/

/-- C4: for every frameHandle below 0x10000, the Static scope entry of the
scopes response carries STATIC_HANDLES_START + frameHandle, that handle lies
in the static range 0x010000 to 0x01FFFF, the variables request classifies
it as the Statics scope of exactly that frameHandle (inversion by
subtraction), and the encoding is a bijection onto the range. -/
theorem staticHandle_bijection (localHandle fh : Nat) (h : fh < 0x10000) :
    ((scopesRequest localHandle fh)[2]? =
      some ⟨"Static", STATIC_HANDLES_START + fh, false⟩) ∧
    (STATIC_HANDLES_START ≤ staticScopeHandle fh ∧
      staticScopeHandle fh ≤ STATIC_HANDLES_FINISH) ∧
    (∀ table : Nat → Option HandleRef,
      variablesRequestDispatch table (staticScopeHandle fh) =
        VarRefClass.statics fh) ∧
    (staticScopeHandle fh - STATIC_HANDLES_START = fh) ∧
    (∀ fh2 : Nat, fh2 < 0x10000 →
      staticScopeHandle fh2 = staticScopeHandle fh → fh2 = fh) ∧
    (∀ hdl : Nat, STATIC_HANDLES_START ≤ hdl → hdl ≤ STATIC_HANDLES_FINISH →
      staticScopeHandle (hdl - STATIC_HANDLES_START) = hdl) := by
  refine ⟨rfl, ?_, ?_, ?_, ?_, ?_⟩
  · constructor
    · simp [staticScopeHandle]
    · simp only [staticScopeHandle, STATIC_HANDLES_START, STATIC_HANDLES_FINISH]
      omega
  · intro table
    have h1 : staticScopeHandle fh ≠ GLOBAL_HANDLE_ID := by
      simp only [staticScopeHandle, STATIC_HANDLES_START, GLOBAL_HANDLE_ID]
      omega
    have h2 : STATIC_HANDLES_START ≤ staticScopeHandle fh ∧
        staticScopeHandle fh ≤ STATIC_HANDLES_FINISH := by
      simp only [staticScopeHandle, STATIC_HANDLES_START, STATIC_HANDLES_FINISH]
      omega
    have h3 : staticScopeHandle fh - STATIC_HANDLES_START = fh := by
      simp [staticScopeHandle]
    simp only [variablesRequestDispatch, h1, if_false, h2.1, h2.2, h3]
    simp
  · simp [staticScopeHandle]
  · intro fh2 _ heq
    simp only [staticScopeHandle] at heq
    omega
  · intro hdl h1 h2
    simp only [staticScopeHandle]
    omega

/-- C4 witness: the theorem instantiated at frameHandle 3. -/
theorem staticHandle_bijection_witness :
    ((scopesRequest 1000 3)[2]? =
      some ⟨"Static", STATIC_HANDLES_START + 3, false⟩) ∧
    (STATIC_HANDLES_START ≤ staticScopeHandle 3 ∧
      staticScopeHandle 3 ≤ STATIC_HANDLES_FINISH) ∧
    (∀ table : Nat → Option HandleRef,
      variablesRequestDispatch table (staticScopeHandle 3) =
        VarRefClass.statics 3) ∧
    (staticScopeHandle 3 - STATIC_HANDLES_START = 3) ∧
    (∀ fh2 : Nat, fh2 < 0x10000 →
      staticScopeHandle fh2 = staticScopeHandle 3 → fh2 = 3) ∧
    (∀ hdl : Nat, STATIC_HANDLES_START ≤ hdl → hdl ≤ STATIC_HANDLES_FINISH →
      staticScopeHandle (hdl - STATIC_HANDLES_START) = hdl) :=
  staticHandle_bijection 1000 3 (by decide)

/-- C10: scopesRequest adds STATIC_HANDLES_START to the frame handle with
no upper bound: for frameHandle at least 0x10000 the returned Static handle
exceeds STATIC_HANDLES_FINISH, it stays distinct from the global constant,
the static handle is in range exactly when the frame handle is below
0x10000, and the variables request resolves such an out-of-range handle
through the handle table instead of the Statics scope. -/
theorem staticHandle_overflow (localHandle fh : Nat)
    (h : 0x10000 ≤ fh) :
    ((scopesRequest localHandle fh)[2]? =
      some ⟨"Static", staticScopeHandle fh, false⟩) ∧
    (STATIC_HANDLES_FINISH < staticScopeHandle fh) ∧
    (staticScopeHandle fh ≠ GLOBAL_HANDLE_ID) ∧
    (∀ fh2 : Nat,
      staticScopeHandle fh2 ≤ STATIC_HANDLES_FINISH ↔ fh2 < 0x10000) ∧
    (∀ table : Nat → Option HandleRef,
      variablesRequestDispatch table (staticScopeHandle fh) =
        tableResolve table (staticScopeHandle fh) ∧
      ∀ fh2 : Nat, variablesRequestDispatch table (staticScopeHandle fh) ≠
        VarRefClass.statics fh2) := by
  have hfin : STATIC_HANDLES_FINISH < staticScopeHandle fh := by
    simp only [staticScopeHandle, STATIC_HANDLES_START, STATIC_HANDLES_FINISH]
    omega
  have hglob : staticScopeHandle fh ≠ GLOBAL_HANDLE_ID := by
    simp only [staticScopeHandle, STATIC_HANDLES_START, GLOBAL_HANDLE_ID]
    omega
  have hrange : ¬(STATIC_HANDLES_START ≤ staticScopeHandle fh ∧
      staticScopeHandle fh ≤ STATIC_HANDLES_FINISH) := by
    intro hc
    exact absurd hc.2 (not_le.mpr hfin)
  refine ⟨rfl, hfin, hglob, ?_, ?_⟩
  · intro fh2
    simp only [staticScopeHandle, STATIC_HANDLES_START, STATIC_HANDLES_FINISH]
    omega
  · intro table
    constructor
    · simp only [variablesRequestDispatch, hglob, if_false, hrange, tableResolve]
    · intro fh2
      simp only [variablesRequestDispatch, hglob, if_false, hrange]
      cases htbl : table (staticScopeHandle fh) with
      | none => simp
      | some r => cases r <;> simp

/-- C10 witness: the theorem instantiated at frameHandle 0x10000 and the
empty handle table. -/
theorem staticHandle_overflow_witness :
    ((scopesRequest 1000 0x10000)[2]? =
      some ⟨"Static", staticScopeHandle 0x10000, false⟩) ∧
    (STATIC_HANDLES_FINISH < staticScopeHandle 0x10000) ∧
    (staticScopeHandle 0x10000 ≠ GLOBAL_HANDLE_ID) ∧
    (∀ fh2 : Nat,
      staticScopeHandle fh2 ≤ STATIC_HANDLES_FINISH ↔ fh2 < 0x10000) ∧
    (∀ table : Nat → Option HandleRef,
      variablesRequestDispatch table (staticScopeHandle 0x10000) =
        tableResolve table (staticScopeHandle 0x10000) ∧
      ∀ fh2 : Nat, variablesRequestDispatch table (staticScopeHandle 0x10000) ≠
        VarRefClass.statics fh2) :=
  staticHandle_overflow 1000 0x10000 (by decide)

/-- C7 counterexample: at exit code 1 the supervisor emits the exit event
first and the error event second, so the claimed order (error before exit)
is false; both events are still emitted exactly once. -/
theorem onExit_order_counterexample :
    onExit (some 1) "SIGTERM" =
      [SrvEvent.exit (some 1) "SIGTERM", SrvEvent.error (exitErrorMsg 1)] ∧
    ((onExit (some 1) "SIGTERM").head?.map SrvEvent.isError = some false) ∧
    ((onExit (some 1) "SIGTERM").head?.map SrvEvent.isExit = some true) ∧
    (onExit (some 1) "SIGTERM").countP SrvEvent.isError = 1 ∧
    (onExit (some 1) "SIGTERM").countP SrvEvent.isExit = 1 := by
  refine ⟨rfl, rfl, rfl, rfl, rfl⟩

/-- C7 amended: a nonzero, non-null exit code emits exactly one exit event
followed by exactly one error event, in that order (exit first); a zero,
null or undefined code emits only the exit event and no error event. -/
theorem onExit_events (code : Option Int) (signal : String) :
    (∀ n : Int, code = some n → n ≠ 0 →
      onExit code signal =
        [SrvEvent.exit code signal, SrvEvent.error (exitErrorMsg n)]) ∧
    (jsTruthyNum code = false →
      onExit code signal = [SrvEvent.exit code signal]) := by
  constructor
  · intro n hn hne
    subst hn
    simp [onExit, hne]
  · intro hfalse
    cases code with
    | none => simp [onExit]
    | some n =>
      have hz : n = 0 := by
        by_contra hne
        simp [jsTruthyNum, hne] at hfalse
      simp [onExit, hz]

/-- C7 witness: the amended theorem applied at exit code 1 (abnormal) and
at exit code 0 (normal). -/
theorem onExit_events_witness :
    onExit (some 1) "x" =
      [SrvEvent.exit (some 1) "x", SrvEvent.error (exitErrorMsg 1)] ∧
    onExit (some 0) "y" = [SrvEvent.exit (some 0) "y"] :=
  ⟨(onExit_events (some 1) "x").1 1 rfl (by decide),
   (onExit_events (some 0) "y").2 (by decide)⟩


/-! ### Log-point table well-formedness (registrations are truthy) -/

/-- Association lookup success yields a member pair. -/
theorem lookup_mem_pair {tbl : List (String × String)} {k m : String}
    (h : tbl.lookup k = some m) : (k, m) ∈ tbl := by
  induction tbl with
  | nil => simp [List.lookup] at h
  | cons p rest ih =>
    rw [List.lookup] at h
    cases hk : (k == p.1) with
    | true =>
      rw [hk] at h
      simp only [Option.some.injEq] at h
      have hkey : k = p.1 := by simpa using hk
      have hp : p = (k, m) := by
        cases p
        simp only at hkey h
        simp [hkey, h]
      rw [hp]
      exact List.mem_cons_self _ _
    | false =>
      rw [hk] at h
      exact List.mem_cons_of_mem _ (ih h)

/-- One break-list step only registers nonempty log messages. -/
theorem phase1Step_logMsgs_truthy (file : String) (bps : List VsBreakpoint)
    (st : Phase1State) (g : GdbBreakpoint)
    (h : ∀ p ∈ st.logMsgs, p.2 ≠ "") :
    ∀ p ∈ (phase1Step file bps st g).logMsgs, p.2 ≠ "" := by
  intro p hp
  unfold phase1Step at hp
  cases hgl : g.line with
  | none =>
    simp only [hgl] at hp
    exact h p hp
  | some line =>
    simp only [hgl] at hp
    by_cases hf : g.fullname = file
    · simp only [if_pos hf] at hp
      rcases List.mem_append.mp hp with h1 | h2
      · cases hbp : List.find? (fun v => v.line == line) bps with
        | none =>
          simp only [hbp] at h1
          exact absurd h1 (List.not_mem_nil p)
        | some b =>
          cases hmsg : b.logMessage with
          | none =>
            simp only [hbp, hmsg] at h1
            exact absurd h1 (List.not_mem_nil p)
          | some m =>
            simp only [hbp, hmsg] at h1
            by_cases hme : m = ""
            · rw [if_neg (by simp [hme])] at h1
              exact absurd h1 (List.not_mem_nil p)
            · rw [if_pos hme] at h1
              rcases List.mem_map.mp h1 with ⟨x, _, hpe⟩
              rw [← hpe]
              exact hme
      · exact h p h2
    · simp only [if_neg hf] at hp
      exact h p hp

/-- Every log message registered by the break-list loop is nonempty. -/
theorem phase1_logMsgs_truthy (file : String) (bps : List VsBreakpoint) :
    ∀ (gdbbps : List GdbBreakpoint) (st : Phase1State),
    (∀ p ∈ st.logMsgs, p.2 ≠ "") →
    ∀ p ∈ (phase1 file bps gdbbps st).logMsgs, p.2 ≠ "" := by
  intro gdbbps
  induction gdbbps with
  | nil => intro st h; exact h
  | cons g gs ih =>
    intro st h
    rw [phase1]
    exact ih _ (phase1Step_logMsgs_truthy file bps st g h)

/-- Every log message registered by the insert loop is nonempty. -/
theorem phase2_logMsgs_truthy (file : String) :
    ∀ (l : List VsBreakpoint) (resps : List GdbBreakpoint),
    ∀ p ∈ (phase2 file l resps).logMsgs, p.2 ≠ "" := by
  intro l
  induction l with
  | nil => intro resps p hp; simp [phase2] at hp
  | cons v rest ih =>
    intro resps p hp
    rw [phase2] at hp
    cases hhit : parseHitCondition v.hitCondition with
    | skip d =>
      rw [hhit] at hp
      exact ih resps p hp
    | install t ic =>
      rw [hhit] at hp
      simp only at hp
      cases hm : v.logMessage with
      | none =>
        simp only [hm] at hp
        exact ih resps.tail p hp
      | some m =>
        simp only [hm] at hp
        by_cases hme : m = ""
        · rw [if_neg (by simp [hme])] at hp
          exact ih resps.tail p hp
        · rw [if_pos hme] at hp
          rcases List.mem_cons.mp hp with hh | ht
          · rw [hh]; exact hme
          · exact ih resps.tail p ht

/-- Every value of the log-point table left by a reconciliation pass is
nonempty (both registration sites guard on JavaScript truthiness). -/
theorem setBreakPointsRequest_logMsgs_truthy (file : String)
    (bps : List VsBreakpoint) (gdbbps resps : List GdbBreakpoint) :
    ∀ p ∈ (setBreakPointsRequest file bps gdbbps resps).logMsgs, p.2 ≠ "" := by
  intro p hp
  rw [setBreakPointsRequest] at hp
  simp only at hp
  rcases List.mem_append.mp hp with h2 | h1
  · exact phase2_logMsgs_truthy file _ _ p h2
  · exact phase1_logMsgs_truthy file bps gdbbps (phase1Init bps)
      (by intro q hq; simp [phase1Init] at hq) p h1

/-- C3: a breakpoint-hit notification whose breakpoint id is registered in
the log-point table produced by a reconciliation pass makes the stop
classifier emit exactly the log message as output followed by exactly one
resume command, and no stop event is emitted. -/
theorem handleGDBStopped_logpoint (file : String) (bps : List VsBreakpoint)
    (gdbbps resps : List GdbBreakpoint) (w : Bool) (r : StopNotification)
    (id m : String)
    (hreason : r.reason = "breakpoint-hit") (hid : r.bkptno = some id)
    (hm : ((setBreakPointsRequest file bps gdbbps resps).logMsgs).lookup id =
      some m) :
    handleGDBStopped (setBreakPointsRequest file bps gdbbps resps).logMsgs w r =
      [StopAction.output m, StopAction.execContinue] ∧
    (handleGDBStopped (setBreakPointsRequest file bps gdbbps resps).logMsgs
      w r).countP StopAction.isExecContinue = 1 ∧
    (∀ a ∈ handleGDBStopped (setBreakPointsRequest file bps gdbbps resps).logMsgs
      w r, a.isStopped = false) := by
  have hne : m ≠ "" :=
    setBreakPointsRequest_logMsgs_truthy file bps gdbbps resps (id, m)
      (lookup_mem_pair hm)
  have hmain : handleGDBStopped
      (setBreakPointsRequest file bps gdbbps resps).logMsgs w r =
      [StopAction.output m, StopAction.execContinue] := by
    rw [handleGDBStopped, hreason]
    simp only [lookupLogMessage, hid, hm]
    simp [hne]
  refine ⟨hmain, ?_, ?_⟩
  · rw [hmain]; rfl
  · rw [hmain]
    intro a ha
    rcases List.mem_cons.mp ha with h | h
    · rw [h]; rfl
    · rcases List.mem_cons.mp h with h2 | h2
      · rw [h2]; rfl
      · exact absurd h2 (List.not_mem_nil a)

/-- C3 witness: a reconciliation pass that registers the log message hello
under backend id 5, followed by a breakpoint-hit at id 5. -/
theorem handleGDBStopped_logpoint_witness :
    handleGDBStopped
      (setBreakPointsRequest "f.c" [⟨10, none, none, some "hello"⟩] []
        [⟨"5", "f.c", some 10, none⟩]).logMsgs false
      ⟨"breakpoint-hit", some "1", some "all", none, some "5"⟩ =
      [StopAction.output "hello", StopAction.execContinue] ∧
    (handleGDBStopped
      (setBreakPointsRequest "f.c" [⟨10, none, none, some "hello"⟩] []
        [⟨"5", "f.c", some 10, none⟩]).logMsgs false
      ⟨"breakpoint-hit", some "1", some "all", none, some "5"⟩).countP
        StopAction.isExecContinue = 1 ∧
    (∀ a ∈ handleGDBStopped
      (setBreakPointsRequest "f.c" [⟨10, none, none, some "hello"⟩] []
        [⟨"5", "f.c", some 10, none⟩]).logMsgs false
      ⟨"breakpoint-hit", some "1", some "all", none, some "5"⟩,
        a.isStopped = false) :=
  handleGDBStopped_logpoint "f.c" [⟨10, none, none, some "hello"⟩] []
    [⟨"5", "f.c", some 10, none⟩] false
    ⟨"breakpoint-hit", some "1", some "all", none, some "5"⟩ "5" "hello"
    rfl rfl (by decide)

/-- C5: resolving a tracked variable keyed by (frameId, threadId, depth,
displayName).  On a cache hit exactly one update command and no create
command is issued, and the cached object is overwritten exactly when the
first changelist entry exists, reports in_scope true and names the cached
backend variable (otherwise the cache is left unchanged).  On a cache miss
exactly one create command is issued and the reply is inserted under the
key, so a second resolution of the same key issues no create command. -/
theorem getVariables_cache_protocol (cache : List (VarKey × VarObj))
    (upd : List VarUpdateItem) (cr : VarCreateResponse)
    (fId tId : Int) (n e : String) (d : Int) :
    (∀ g, cache.lookup (⟨fId, tId, d, n⟩ : VarKey) = some g →
      (getVariables cache upd cr fId tId n e d).cmds = [VarCmd.varUpdate n] ∧
      (getVariables cache upd cr fId tId n e d).cache =
        (match upd.head? with
         | some u =>
           if u.in_scope = "true" ∧ u.name = g.varname then
             cacheSet cache ⟨fId, tId, d, n⟩ { g with value := u.value }
           else cache
         | none => cache)) ∧
    (cache.lookup (⟨fId, tId, d, n⟩ : VarKey) = none →
      (getVariables cache upd cr fId tId n e d).cmds = [VarCmd.varCreate n e] ∧
      (getVariables cache upd cr fId tId n e d).cache.lookup
        (⟨fId, tId, d, n⟩ : VarKey) = some (mkVarObj cr) ∧
      (∀ (upd2 : List VarUpdateItem) (cr2 : VarCreateResponse),
        (getVariables (getVariables cache upd cr fId tId n e d).cache
          upd2 cr2 fId tId n e d).cmds.countP VarCmd.isCreate = 0)) := by
  constructor
  · intro g hg
    cases hu : upd.head? with
    | none =>
      refine ⟨?_, ?_⟩ <;> simp [getVariables, hg, hu]
    | some u =>
      by_cases hc : u.in_scope = "true" ∧ u.name = g.varname
      · refine ⟨?_, ?_⟩ <;> simp [getVariables, hg, hu, hc]
      · refine ⟨?_, ?_⟩ <;> simp [getVariables, hg, hu, hc]
  · intro hnone
    have hl : ((((⟨fId, tId, d, n⟩ : VarKey), mkVarObj cr)) :: cache).lookup
        (⟨fId, tId, d, n⟩ : VarKey) = some (mkVarObj cr) := by
      simp [List.lookup]
    refine ⟨by simp [getVariables, hnone], ?_, ?_⟩
    · simp only [getVariables, hnone]
      exact hl
    · intro upd2 cr2
      simp only [getVariables, hnone]
      cases hu2 : upd2.head? with
      | none =>
        simp [getVariables, hl, hu2, List.countP_cons, VarCmd.isCreate]
      | some u =>
        by_cases hc : u.in_scope = "true" ∧ u.name = (mkVarObj cr).varname
        · simp [getVariables, hl, hu2, hc, List.countP_cons, VarCmd.isCreate]
        · simp [getVariables, hl, hu2, hc, List.countP_cons, VarCmd.isCreate]

/-- C5 witness: the hit branch on a singleton cache and the miss branch on
the empty cache, at concrete inputs. -/
theorem getVariables_cache_protocol_witness :
    ((getVariables [((⟨1, 2, -1, "g"⟩ : VarKey), (⟨"var1", some "0", none, "0"⟩ : VarObj))]
        [⟨"var1", "true", some "7"⟩] ⟨"var9", some "3", none, "2"⟩
        1 2 "g" "x" (-1)).cmds = [VarCmd.varUpdate "g"] ∧
      (getVariables [((⟨1, 2, -1, "g"⟩ : VarKey), (⟨"var1", some "0", none, "0"⟩ : VarObj))]
        [⟨"var1", "true", some "7"⟩] ⟨"var9", some "3", none, "2"⟩
        1 2 "g" "x" (-1)).cache =
        (match ([(⟨"var1", "true", some "7"⟩ : VarUpdateItem)].head?) with
         | some u =>
           if u.in_scope = "true" ∧
               u.name = (⟨"var1", some "0", none, "0"⟩ : VarObj).varname then
             cacheSet [((⟨1, 2, -1, "g"⟩ : VarKey), (⟨"var1", some "0", none, "0"⟩ : VarObj))]
               ⟨1, 2, -1, "g"⟩
               { (⟨"var1", some "0", none, "0"⟩ : VarObj) with value := u.value }
           else [((⟨1, 2, -1, "g"⟩ : VarKey), (⟨"var1", some "0", none, "0"⟩ : VarObj))]
         | none => [((⟨1, 2, -1, "g"⟩ : VarKey), (⟨"var1", some "0", none, "0"⟩ : VarObj))])) ∧
    ((getVariables [] [⟨"var1", "true", some "7"⟩] ⟨"var9", some "3", none, "2"⟩
        1 2 "g" "x" (-1)).cmds = [VarCmd.varCreate "g" "x"] ∧
      (getVariables [] [⟨"var1", "true", some "7"⟩] ⟨"var9", some "3", none, "2"⟩
        1 2 "g" "x" (-1)).cache.lookup (⟨1, 2, -1, "g"⟩ : VarKey) =
        some (mkVarObj ⟨"var9", some "3", none, "2"⟩) ∧
      (∀ (upd2 : List VarUpdateItem) (cr2 : VarCreateResponse),
        (getVariables
          (getVariables [] [⟨"var1", "true", some "7"⟩]
            ⟨"var9", some "3", none, "2"⟩ 1 2 "g" "x" (-1)).cache
          upd2 cr2 1 2 "g" "x" (-1)).cmds.countP VarCmd.isCreate = 0)) :=
  ⟨(getVariables_cache_protocol
      [((⟨1, 2, -1, "g"⟩ : VarKey), (⟨"var1", some "0", none, "0"⟩ : VarObj))]
      [⟨"var1", "true", some "7"⟩] ⟨"var9", some "3", none, "2"⟩
      1 2 "g" "x" (-1)).1 ⟨"var1", some "0", none, "0"⟩ (by decide),
   (getVariables_cache_protocol [] [⟨"var1", "true", some "7"⟩]
      ⟨"var9", some "3", none, "2"⟩ 1 2 "g" "x" (-1)).2 (by decide)⟩


/-! ### Process-supervisor line feeding (C6) -/

/-- handleData on a cleared launch promise: state unchanged, only a
possible server-error event. -/
theorem handleData_not_pending (started serverErr : String → Bool)
    (st : ServerState) (data : String) (h : st.launchPending = false) :
    handleData started serverErr st data =
      (st, if serverErr data then [SrvEvent.error (firstLine data)] else []) := by
  have hcond : (st.launchPending && started data) = false := by
    rw [h]; rfl
  simp [handleData, hcond]

/-- handleData on a non-matching line: state unchanged, only a possible
server-error event. -/
theorem handleData_no_match (started serverErr : String → Bool)
    (st : ServerState) (data : String) (h : started data = false) :
    handleData started serverErr st data =
      (st, if serverErr data then [SrvEvent.error (firstLine data)] else []) := by
  have hcond : (st.launchPending && started data) = false := by
    rw [h]; simp
  simp [handleData, hcond]

/-- handleData on a matching line while pending: resolve, clear the timer
and the promise callbacks. -/
theorem handleData_match (started serverErr : String → Bool)
    (st : ServerState) (data : String)
    (h0 : st.launchPending = true) (hl : started data = true) :
    handleData started serverErr st data =
      ((⟨false, false⟩ : ServerState),
       SrvEvent.resolved ::
         (if serverErr data then [SrvEvent.error (firstLine data)] else [])) := by
  have hcond : (st.launchPending && started data) = true := by
    rw [h0, hl]; rfl
  simp [handleData, hcond]

/-- A possible server-error event list contains no resolution. -/
theorem errEvents_no_resolved (serverErr : String → Bool) (data : String) :
    (if serverErr data then [SrvEvent.error (firstLine data)]
      else []).countP SrvEvent.isResolved = 0 := by
  by_cases he : serverErr data <;> simp [he, SrvEvent.isResolved]

/-- Feeding an appended line list splits into sequential runs. -/
theorem runLines_append (started serverErr : String → Bool)
    (as bs : List String) :
    ∀ st : ServerState,
    runLines started serverErr st (as ++ bs) =
      ((runLines started serverErr
          (runLines started serverErr st as).1 bs).1,
       (runLines started serverErr st as).2 ++
         (runLines started serverErr
          (runLines started serverErr st as).1 bs).2) := by
  induction as with
  | nil => intro st; simp [runLines]
  | cons a rest ih =>
    intro st
    rw [List.cons_append, runLines, runLines]
    rw [ih]
    simp [List.append_assoc]

/-- Once the launch promise is cleared, no further line resolves it and the
state is left unchanged. -/
theorem runLines_not_pending (started serverErr : String → Bool)
    (ls : List String) :
    ∀ st : ServerState, st.launchPending = false →
    (runLines started serverErr st ls).1 = st ∧
    (runLines started serverErr st ls).2.countP SrvEvent.isResolved = 0 := by
  induction ls with
  | nil => intro st _; exact ⟨rfl, rfl⟩
  | cons l rest ih =>
    intro st h
    rw [runLines, handleData_not_pending started serverErr st l h]
    have := ih st h
    refine ⟨this.1, ?_⟩
    simp [List.countP_append, this.2, errEvents_no_resolved]

/-- Before any line matches the readiness predicate, the state is left
unchanged and nothing is resolved. -/
theorem runLines_no_match (started serverErr : String → Bool)
    (ls : List String) :
    ∀ st : ServerState, (∀ x ∈ ls, started x = false) →
    (runLines started serverErr st ls).1 = st ∧
    (runLines started serverErr st ls).2.countP SrvEvent.isResolved = 0 := by
  induction ls with
  | nil => intro st _; exact ⟨rfl, rfl⟩
  | cons l rest ih =>
    intro st h
    have hl : started l = false := h l (List.mem_cons_self l rest)
    rw [runLines, handleData_no_match started serverErr st l hl]
    have := ih st (fun x hx => h x (List.mem_cons_of_mem l hx))
    refine ⟨this.1, ?_⟩
    simp [List.countP_append, this.2, errEvents_no_resolved]

/-- C6: while a start future is pending, the first line matching the
readiness predicate resolves it and clears the startup timer, and the
future is resolved exactly once over the whole line sequence: lines before
the first match resolve nothing, and no line after it resolves again. -/
theorem runLines_resolves_once (started serverErr : String → Bool)
    (st : ServerState) (pre post : List String) (l : String)
    (h0 : st.launchPending = true)
    (hpre : ∀ x ∈ pre, started x = false)
    (hl : started l = true) :
    ((runLines started serverErr st (pre ++ l :: post)).2.countP
      SrvEvent.isResolved = 1) ∧
    ((runLines started serverErr st (pre ++ [l])).1 =
      (⟨false, false⟩ : ServerState)) ∧
    ((runLines started serverErr st pre).2.countP SrvEvent.isResolved = 0) := by
  have hpre1 := runLines_no_match started serverErr pre st hpre
  have hpost := runLines_not_pending started serverErr post
    ⟨false, false⟩ rfl
  refine ⟨?_, ?_, hpre1.2⟩
  · rw [runLines_append started serverErr pre (l :: post) st]
    rw [hpre1.1]
    rw [runLines, handleData_match started serverErr st l h0 hl]
    simp [List.countP_append, hpre1.2, hpost.2, errEvents_no_resolved,
      List.countP_cons, SrvEvent.isResolved]
  · rw [runLines_append started serverErr pre [l] st]
    rw [hpre1.1]
    rw [runLines, handleData_match started serverErr st l h0 hl]
    rw [runLines]

/-- C6 witness: two non-matching lines, a matching line, then another
matching line; the future is resolved exactly once and the timer cleared. -/
theorem runLines_resolves_once_witness :
    ((runLines (fun s => s == "GDB server started")
        (fun s => s == "error") ⟨true, true⟩
        (["loading", "connecting"] ++ "GDB server started" ::
          ["GDB server started"])).2.countP SrvEvent.isResolved = 1) ∧
    ((runLines (fun s => s == "GDB server started")
        (fun s => s == "error") ⟨true, true⟩
        (["loading", "connecting"] ++ ["GDB server started"])).1 =
      (⟨false, false⟩ : ServerState)) ∧
    ((runLines (fun s => s == "GDB server started")
        (fun s => s == "error") ⟨true, true⟩
        ["loading", "connecting"]).2.countP SrvEvent.isResolved = 0) :=
  runLines_resolves_once (fun s => s == "GDB server started")
    (fun s => s == "error") ⟨true, true⟩ ["loading", "connecting"]
    ["GDB server started"] "GDB server started" rfl (by decide) (by decide)

/-! ### Line draining of the supervisor buffers (C8) -/

/-- lastIndexOf of a newline fails exactly on newline-free buffers. -/
theorem lastNl_none_iff (l : List Char) : lastNl l = none ↔ '\n' ∉ l := by
  induction l with
  | nil => simp [lastNl]
  | cons c cs ih =>
    rw [lastNl]
    cases h : lastNl cs with
    | some i =>
      have hmem : '\n' ∈ cs := by
        by_contra hn
        rw [← ih] at hn
        rw [h] at hn
        cases hn
      simp [h, hmem]
    | none =>
      have hnm : '\n' ∉ cs := ih.mp h
      by_cases hc : c = '\n'
      · simp [hc]
      · simp [hc, hnm, Ne.symm hc]

/-- The buffer splits around the position found by lastIndexOf, and no
newline remains after it. -/
theorem lastNl_spec (l : List Char) :
    ∀ i, lastNl l = some i →
    l.take i ++ '\n' :: l.drop (i + 1) = l ∧ '\n' ∉ l.drop (i + 1) := by
  induction l with
  | nil => intro i h; cases h
  | cons c cs ih =>
    intro i h
    rw [lastNl] at h
    cases hcs : lastNl cs with
    | some j =>
      rw [hcs] at h
      simp only [Option.some.injEq] at h
      obtain ⟨h1, h2⟩ := ih j hcs
      subst h
      refine ⟨?_, ?_⟩
      · simp only [List.take_succ_cons, List.drop_succ_cons, List.cons_append,
          List.cons.injEq]
        exact ⟨trivial, h1⟩
      · simpa using h2
    | none =>
      rw [hcs] at h
      by_cases hc : c = '\n'
      · rw [if_pos hc] at h
        simp only [Option.some.injEq] at h
        subst h
        refine ⟨?_, ?_⟩
        · simp [hc]
        · simpa using (lastNl_none_iff cs).mp hcs
      · rw [if_neg hc] at h
        cases h

/-- C8 counterexample: on the chunk a-newline-b-newline the source emits a
single output payload carrying both lines joined (and feeds handleData just
once with it), whereas per-line extraction would give the two separate
lines a and b. -/
theorem onData_per_line_counterexample :
    onData [] ['a', '\n', 'b', '\n'] = ([], [['a', '\n', 'b']]) ∧
    splitCompleteLines ['a', '\n', 'b', '\n'] = [['a'], ['b']] ∧
    (onData [] ['a', '\n', 'b', '\n']).2.length = 1 ∧
    (splitCompleteLines ['a', '\n', 'b', '\n']).length = 2 ∧
    (onData [] ['a', '\n', 'b', '\n']).2 ≠
      splitCompleteLines ['a', '\n', 'b', '\n'] := by
  decide

/-- C8 amended: on each data arrival the chunk is appended to the stream
buffer; when the buffer holds a newline, exactly one output event is
emitted (and fed once to handleData) carrying everything before the last
newline, possibly several lines joined, and only the trailing partial line
is retained; a newline-free buffer emits nothing and is kept whole. -/
theorem onData_single_drain (buffer chunk : List Char) :
    ('\n' ∉ (onData buffer chunk).1) ∧
    ((onData buffer chunk).2.length ≤ 1) ∧
    ('\n' ∉ buffer ++ chunk → onData buffer chunk = (buffer ++ chunk, [])) ∧
    ('\n' ∈ buffer ++ chunk →
      ∃ block, (onData buffer chunk).2 = [block] ∧
        block ++ '\n' :: (onData buffer chunk).1 = buffer ++ chunk) := by
  cases h : lastNl (buffer ++ chunk) with
  | none =>
    have hnm : '\n' ∉ buffer ++ chunk := (lastNl_none_iff _).mp h
    refine ⟨?_, ?_, ?_, ?_⟩
    · simpa [onData, h] using hnm
    · simp [onData, h]
    · intro _; simp [onData, h]
    · intro hmem; exact absurd hmem hnm
  | some e =>
    obtain ⟨h1, h2⟩ := lastNl_spec (buffer ++ chunk) e h
    refine ⟨?_, ?_, ?_, ?_⟩
    · simpa [onData, h] using h2
    · simp [onData, h]
    · intro hnm
      exfalso
      apply hnm
      rw [← h1]
      exact List.mem_append_right _ (List.mem_cons_self _ _)
    · intro _
      refine ⟨(buffer ++ chunk).take e, by simp [onData, h], ?_⟩
      simpa [onData, h] using h1

/-- C8 witness: the amended theorem applied to a buffer holding a partial
line and a chunk completing two lines. -/
theorem onData_single_drain_witness :
    ∃ block, (onData ['x'] ['y', '\n', 'z']).2 = [block] ∧
      block ++ '\n' :: (onData ['x'] ['y', '\n', 'z']).1 =
        ['x'] ++ ['y', '\n', 'z'] :=
  (onData_single_drain ['x'] ['y', '\n', 'z']).2.2.2 (by decide)

/-! ### Hit-condition handling of the insert loop (C2) -/

/-- C2 counterexample: the hit-count string 3abc is neither a bare count
nor a greater-than-prefixed count, yet the insert loop installs a temporary
breakpoint with ignore count 3 for it (parseInt keeps the leading digits)
and emits no diagnostic, contradicting the claim that any other form
installs no breakpoint. -/
theorem hitCondition_counterexample :
    isBareCount "3abc" = false ∧
    isGtPrefixedCount "3abc" = false ∧
    parseHitCondition (some "3abc") = HitAction.install true (some 3) ∧
    (phase2 "f.c" [⟨10, none, some "3abc", none⟩]
      [⟨"7", "f.c", some 10, none⟩]).cmds =
      [ReconCmd.breakInsert "f.c" 10 none true (some 3)] ∧
    (phase2 "f.c" [⟨10, none, some "3abc", none⟩]
      [⟨"7", "f.c", some 10, none⟩]).events = [] := by
  decide

/-- C2 amended: for a desired breakpoint carrying a hit-count string, the
decisive test is whether parseInt accepts the string once whitespace and
greater-than signs are stripped.  If it parses to n, one break-insert is
issued for the entry: temporary exactly when the string does not start
with a greater-than sign, with ignore count n (so a bare count gives a
temporary breakpoint and a greater-than-prefixed count a persistent one
with that ignore count, but so do unintended forms such as 3abc).  If it
does not parse, no break-insert is issued for the entry, exactly one
diagnostic output is emitted, and the remaining entries are still
processed. -/
theorem phase2_hitCondition (file : String) (v : VsBreakpoint)
    (rest : List VsBreakpoint) (resps : List GdbBreakpoint) (hc : String)
    (hv : v.hitCondition = some hc) :
    (∀ n : Int, jsParseInt (stripIgnoreCount hc.data) = some n →
      (phase2 file (v :: rest) resps).cmds =
        ReconCmd.breakInsert file v.line v.condition
          (!(startsWithGt hc.data)) (some n) ::
          (phase2 file rest resps.tail).cmds ∧
      (phase2 file (v :: rest) resps).events =
        (phase2 file rest resps.tail).events) ∧
    (jsParseInt (stripIgnoreCount hc.data) = none →
      (phase2 file (v :: rest) resps).cmds = (phase2 file rest resps).cmds ∧
      (phase2 file (v :: rest) resps).events =
        ReconEvent.output (hitDiagnostic hc) ::
          (phase2 file rest resps).events) := by
  constructor
  · intro n hn
    have hph : parseHitCondition v.hitCondition =
        HitAction.install (!(startsWithGt hc.data)) (some n) := by
      rw [hv, parseHitCondition, hn]
    rw [phase2, hph]
    exact ⟨rfl, rfl⟩
  · intro hn
    have hph : parseHitCondition v.hitCondition =
        HitAction.skip (hitDiagnostic hc) := by
      rw [hv, parseHitCondition, hn]
    rw [phase2, hph]
    exact ⟨rfl, rfl⟩

/-- C2 witness: the amended theorem applied to the spec's three examples,
a bare count 3 (temporary), a prefixed count greater-than 3 (persistent,
ignore count 3), and the unparsable abc (one diagnostic, no insert). -/
theorem phase2_hitCondition_witness :
    ((phase2 "f.c" [⟨10, none, some "3", none⟩] [⟨"7", "f.c", some 10, none⟩]).cmds =
      ReconCmd.breakInsert "f.c" 10 none (!(startsWithGt "3".data)) (some 3) ::
        (phase2 "f.c" [] [⟨"7", "f.c", some 10, none⟩].tail).cmds ∧
     (phase2 "f.c" [⟨10, none, some "3", none⟩] [⟨"7", "f.c", some 10, none⟩]).events =
        (phase2 "f.c" [] [⟨"7", "f.c", some 10, none⟩].tail).events) ∧
    ((phase2 "f.c" [⟨20, none, some "> 3", none⟩] [⟨"8", "f.c", some 20, none⟩]).cmds =
      ReconCmd.breakInsert "f.c" 20 none (!(startsWithGt "> 3".data)) (some 3) ::
        (phase2 "f.c" [] [⟨"8", "f.c", some 20, none⟩].tail).cmds ∧
     (phase2 "f.c" [⟨20, none, some "> 3", none⟩] [⟨"8", "f.c", some 20, none⟩]).events =
        (phase2 "f.c" [] [⟨"8", "f.c", some 20, none⟩].tail).events) ∧
    ((phase2 "f.c" [⟨30, none, some "abc", none⟩] []).cmds =
        (phase2 "f.c" [] ([] : List GdbBreakpoint)).cmds ∧
     (phase2 "f.c" [⟨30, none, some "abc", none⟩] []).events =
        ReconEvent.output (hitDiagnostic "abc") ::
          (phase2 "f.c" [] ([] : List GdbBreakpoint)).events) :=
  ⟨(phase2_hitCondition "f.c" ⟨10, none, some "3", none⟩ []
      [⟨"7", "f.c", some 10, none⟩] "3" rfl).1 3 (by decide),
   (phase2_hitCondition "f.c" ⟨20, none, some "> 3", none⟩ []
      [⟨"8", "f.c", some 20, none⟩] "> 3" rfl).1 3 (by decide),
   (phase2_hitCondition "f.c" ⟨30, none, some "abc", none⟩ [] [] "abc"
      rfl).2 (by decide)⟩

/-! ### Reconciliation keeps line-sharing installed breakpoints (C9) -/

/-- The desired-versus-installed match predicate in propositional form. -/
theorem bpMatch_iff (line : Nat) (tc : Option String) (v : VsBreakpoint) :
    bpMatch line tc v = true ↔ v.line = line ∧ normCond v.condition = tc := by
  simp [bpMatch]

/-- The insert loop issues break-insert commands only. -/
theorem phase2_cmds_insert_only (file : String) :
    ∀ (l : List VsBreakpoint) (resps : List GdbBreakpoint),
    ∀ c ∈ (phase2 file l resps).cmds, c.isBreakInsert = true := by
  intro l
  induction l with
  | nil => intro resps c hc; simp [phase2] at hc
  | cons v rest ih =>
    intro resps c hc
    rw [phase2] at hc
    cases hhit : parseHitCondition v.hitCondition with
    | skip d =>
      rw [hhit] at hc
      exact ih resps c hc
    | install t ic =>
      rw [hhit] at hc
      simp only at hc
      rcases List.mem_cons.mp hc with h | h
      · rw [h]; rfl
      · exact ih resps.tail c h

/-- Every surviving desired entry with a parsable (or absent) hit condition
contributes its break-insert command to the insert loop. -/
theorem phase2_insert_mem (file : String) (d : VsBreakpoint) (t : Bool)
    (ic : Option Int)
    (hhit : parseHitCondition d.hitCondition = HitAction.install t ic) :
    ∀ (l : List VsBreakpoint) (resps : List GdbBreakpoint), d ∈ l →
    ReconCmd.breakInsert file d.line d.condition t ic ∈
      (phase2 file l resps).cmds := by
  intro l
  induction l with
  | nil => intro resps hd; cases hd
  | cons v rest ih =>
    intro resps hd
    rw [phase2]
    rcases List.mem_cons.mp hd with h | h
    · subst h
      rw [hhit]
      exact List.mem_cons_self _ _
    · cases hv : parseHitCondition v.hitCondition with
      | skip diag => exact ih resps h
      | install t2 ic2 =>
        simp only
        exact List.mem_cons_of_mem _ (ih resps.tail h)

/-- Delete marks come only from installed entries of the file whose line is
shared by no desired entry. -/
theorem phase1_deletes_from (file : String) (bps : List VsBreakpoint) :
    ∀ (gdbbps : List GdbBreakpoint) (st : Phase1State) (n : String),
    n ∈ (phase1 file bps gdbbps st).deletes →
    n ∈ st.deletes ∨ ∃ g ∈ gdbbps, g.number = n ∧ g.fullname = file ∧
      ∃ L : Nat, g.line = some L ∧
        bps.find? (fun v => v.line == L) = none := by
  intro gdbbps
  induction gdbbps with
  | nil => intro st n h; exact Or.inl h
  | cons g gs ih =>
    intro st n h
    rw [phase1] at h
    rcases ih _ n h with h1 | h2
    · unfold phase1Step at h1
      cases hgl : g.line with
      | none =>
        simp only [hgl] at h1
        exact Or.inl h1
      | some L =>
        simp only [hgl] at h1
        by_cases hf : g.fullname = file
        · simp only [if_pos hf] at h1
          cases hfind : bps.find? (fun v => v.line == L) with
          | none =>
            simp only [hfind] at h1
            rcases List.mem_append.mp h1 with ha | hb
            · exact Or.inl ha
            · have hn : n = g.number := by simpa using hb
              exact Or.inr ⟨g, List.mem_cons_self _ _, hn.symm, hf, L, hgl,
                hfind⟩
          | some b =>
            simp only [hfind] at h1
            exact Or.inl h1
        · simp only [if_neg hf] at h1
          exact Or.inl h1
    · rcases h2 with ⟨g2, hg2, hrest⟩
      exact Or.inr ⟨g2, List.mem_cons_of_mem _ hg2, hrest⟩

/-- A desired entry matching no installed entry of the file by line and
condition survives the whole break-list loop. -/
theorem phase1_inserts_keep (file : String) (bps : List VsBreakpoint)
    (d : VsBreakpoint) :
    ∀ (gdbbps : List GdbBreakpoint) (st : Phase1State),
    d ∈ st.inserts →
    (∀ g ∈ gdbbps, g.fullname = file → ∀ L : Nat, g.line = some L →
      bpMatch L (normCond g.cond) d = false) →
    d ∈ (phase1 file bps gdbbps st).inserts := by
  intro gdbbps
  induction gdbbps with
  | nil => intro st hd _; exact hd
  | cons g gs ih =>
    intro st hd hno
    rw [phase1]
    apply ih
    · unfold phase1Step
      cases hgl : g.line with
      | none => exact hd
      | some L =>
        by_cases hf : g.fullname = file
        · simp only [hf, eq_self_iff_true, if_true]
          refine List.mem_filter.mpr ⟨hd, ?_⟩
          rw [hno g (List.mem_cons_self _ _) hf L hgl]
          rfl
        · simp only [hf, if_false]
          exact hd
    · exact fun g2 hg2 => hno g2 (List.mem_cons_of_mem _ hg2)

/-- C9: an installed breakpoint whose line is shared by some desired entry
is never marked for deletion even when the conditions differ, and a
condition-mismatched desired entry at that line is installed as a new
breakpoint, so the pass both keeps the old breakpoint and issues a new
insert at the same line. -/
theorem setBreakPointsRequest_condition_mismatch (file : String)
    (bps : List VsBreakpoint) (gdbbps resps : List GdbBreakpoint)
    (g : GdbBreakpoint) (d : VsBreakpoint) (L : Nat) (t : Bool)
    (ic : Option Int)
    (hg : g ∈ gdbbps) (hgline : g.line = some L)
    (hd : d ∈ bps) (hdline : d.line = L)
    (hnomatch : ∀ g2 ∈ gdbbps, g2.fullname = file → ∀ L2 : Nat,
      g2.line = some L2 →
      ¬(d.line = L2 ∧ normCond d.condition = normCond g2.cond))
    (hnodup : (gdbbps.map GdbBreakpoint.number).Nodup)
    (hhit : parseHitCondition d.hitCondition = HitAction.install t ic) :
    (∀ ds, ReconCmd.breakDelete ds ∈
      (setBreakPointsRequest file bps gdbbps resps).cmds →
      g.number ∉ ds) ∧
    ReconCmd.breakInsert file d.line d.condition t ic ∈
      (setBreakPointsRequest file bps gdbbps resps).cmds := by
  have hcmds : (setBreakPointsRequest file bps gdbbps resps).cmds =
      ReconCmd.breakList ::
        (phase2 file (phase1 file bps gdbbps (phase1Init bps)).inserts
          resps).cmds ++
        (if (phase1 file bps gdbbps (phase1Init bps)).deletes.isEmpty then []
         else [ReconCmd.breakDelete
          (phase1 file bps gdbbps (phase1Init bps)).deletes]) := rfl
  constructor
  · intro ds hds habs
    rw [hcmds] at hds
    rcases List.mem_cons.mp hds with hhead | htail
    · cases hhead
    · rcases List.mem_append.mp htail with hp2 | hifpart
      · have := phase2_cmds_insert_only file _ resps _ hp2
        simp [ReconCmd.isBreakInsert] at this
      · have hdseq : ds = (phase1 file bps gdbbps (phase1Init bps)).deletes := by
          by_cases he : (phase1 file bps gdbbps (phase1Init bps)).deletes.isEmpty
          · rw [if_pos he] at hifpart
            cases hifpart
          · rw [if_neg he] at hifpart
            rcases List.mem_cons.mp hifpart with h1 | h1
            · injection h1
            · cases h1
        rw [hdseq] at habs
        rcases phase1_deletes_from file bps gdbbps (phase1Init bps)
          g.number habs with hin | ⟨g2, hg2, hnum, hf2, L2, hl2, hfind⟩
        · simp [phase1Init] at hin
        · have hgg : g2 = g :=
            List.inj_on_of_nodup_map hnodup hg2 hg hnum
          subst hgg
          rw [hgline] at hl2
          have hLL : L2 = L := by
            injection hl2 with h
            exact h.symm
          subst hLL
          have : ∀ x ∈ bps, ¬(x.line == L2) = true :=
            List.find?_eq_none.mp hfind
          exact this d hd (by simp [hdline])
  · rw [hcmds]
    apply List.mem_cons_of_mem
    apply List.mem_append_left
    apply phase2_insert_mem file d t ic hhit _ resps
    apply phase1_inserts_keep file bps d gdbbps (phase1Init bps) hd
    intro g2 hg2 hf2 L2 hl2
    have hnm := hnomatch g2 hg2 hf2 L2 hl2
    rw [← Bool.not_eq_true]
    intro hb
    exact hnm ((bpMatch_iff L2 (normCond g2.cond) d).mp hb)

/-- C9 witness: installed breakpoint 1 at line 10 with condition old, one
desired breakpoint at line 10 with condition new: breakpoint 1 appears in
no delete command and a new insert at line 10 with condition new is
issued. -/
theorem setBreakPointsRequest_condition_mismatch_witness :
    (∀ ds, ReconCmd.breakDelete ds ∈
      (setBreakPointsRequest "f.c" [⟨10, some "new", none, none⟩]
        [⟨"1", "f.c", some 10, some "old"⟩]
        [⟨"9", "f.c", some 10, some "new"⟩]).cmds →
      ("1" : String) ∉ ds) ∧
    ReconCmd.breakInsert "f.c" 10 (some "new") false none ∈
      (setBreakPointsRequest "f.c" [⟨10, some "new", none, none⟩]
        [⟨"1", "f.c", some 10, some "old"⟩]
        [⟨"9", "f.c", some 10, some "new"⟩]).cmds := by
  have h := setBreakPointsRequest_condition_mismatch "f.c"
    [⟨10, some "new", none, none⟩] [⟨"1", "f.c", some 10, some "old"⟩]
    [⟨"9", "f.c", some 10, some "new"⟩]
    ⟨"1", "f.c", some 10, some "old"⟩ ⟨10, some "new", none, none⟩ 10 false
    none (by decide) rfl (by decide) rfl (by decide) (by decide) rfl
  exact h

/-! ### Reconciliation of an already-synchronised file (C1) -/

/-- The match predicate of phase 1 decides equality of keys. -/
theorem bpMatch_eq_decide (L : Nat) (tc : Option String) (v : VsBreakpoint) :
    bpMatch L tc v = decide (vkey v = (L, tc)) := by
  cases hb : bpMatch L tc v
  · rw [eq_comm, decide_eq_false_iff_not]
    intro hk
    have hc := (bpMatch_iff L tc v).mpr
      ⟨congrArg Prod.fst hk, congrArg Prod.snd hk⟩
    rw [hb] at hc
    cases hc
  · rw [eq_comm, decide_eq_true_eq]
    obtain ⟨h1, h2⟩ := (bpMatch_iff L tc v).mp hb
    exact Prod.ext h1 h2

/-- In a list with pairwise-distinct keys, filtering for a present key
yields exactly one element. -/
theorem filter_eq_key_singleton {α β : Type} [DecidableEq β] (key : α → β)
    (k : β) : ∀ l : List α, (l.map key).Nodup → k ∈ l.map key →
    ∃ a, key a = k ∧ l.filter (fun x => decide (key x = k)) = [a] := by
  intro l
  induction l with
  | nil => intro _ hk; cases hk
  | cons x xs ih =>
    intro hnd hk
    rw [List.map_cons, List.nodup_cons] at hnd
    by_cases hxk : key x = k
    · have hkn : k ∉ xs.map key := by rw [← hxk]; exact hnd.1
      have hfil : xs.filter (fun y => decide (key y = k)) = [] := by
        rw [List.filter_eq_nil_iff]
        intro y hy
        simp only [decide_eq_true_eq]
        intro hyk
        exact hkn (hyk ▸ List.mem_map_of_mem key hy)
      refine ⟨x, hxk, ?_⟩
      simp [List.filter_cons, hxk, hfil]
    · have hk2 : k ∈ xs.map key := by
        rw [List.map_cons] at hk
        rcases List.mem_cons.mp hk with h | h
        · exact absurd h.symm hxk
        · exact h
      obtain ⟨a, ha1, ha2⟩ := ih hnd.2 hk2
      refine ⟨a, ha1, ?_⟩
      simp [List.filter_cons, hxk, ha2]

/-- Filtering out one key commutes with taking keys. -/
theorem filter_ne_key_map {α β : Type} [DecidableEq β] (key : α → β)
    (k : β) : ∀ l : List α,
    (l.filter (fun x => !(decide (key x = k)))).map key =
      (l.map key).filter (fun b => !(decide (b = k))) := by
  intro l
  induction l with
  | nil => rfl
  | cons x xs ih =>
    by_cases hxk : key x = k
    · simp [List.filter_cons, hxk, ih]
    · simp [List.filter_cons, hxk, ih]

/-- A duplicate-free list containing k is a permutation of k consed onto
the list with k filtered out. -/
theorem nodup_perm_cons_filter {β : Type} [DecidableEq β] (k : β) :
    ∀ A : List β, A.Nodup → k ∈ A →
    A.Perm (k :: A.filter (fun b => !(decide (b = k)))) := by
  intro A
  induction A with
  | nil => intro _ hk; cases hk
  | cons x xs ih =>
    intro hnd hk
    rw [List.nodup_cons] at hnd
    by_cases hxk : x = k
    · subst hxk
      have hfil : xs.filter (fun b => !(decide (b = x))) = xs := by
        rw [List.filter_eq_self]
        intro b hb
        have hbne : b ≠ x := fun hbk => hnd.1 (hbk ▸ hb)
        simp [hbne]
      simp [List.filter_cons, hfil]
    · have hk2 : k ∈ xs := by
        rcases List.mem_cons.mp hk with h | h
        · exact absurd h.symm hxk
        · exact h
      have hstep := ih hnd.2 hk2
      have hkeep : (x :: xs).filter (fun b => !(decide (b = k))) =
          x :: xs.filter (fun b => !(decide (b = k))) := by
        simp [List.filter_cons, hxk]
      rw [hkeep]
      exact (hstep.cons x).trans (List.Perm.swap k x _)

/-- Characterisation of one phase-1 step on a file-matching entry with a
line. -/
theorem phase1Step_eq (file : String) (bps : List VsBreakpoint)
    (st : Phase1State) (g : GdbBreakpoint) (L : Nat)
    (hgl : g.line = some L) (hf : g.fullname = file) :
    phase1Step file bps st g =
      ⟨(if (bps.find? (fun v => v.line == L)).isNone
          then st.deletes ++ [g.number] else st.deletes),
       st.inserts.filter (fun v => !(bpMatch L (normCond g.cond) v)),
       st.actual ++ (st.inserts.filter (bpMatch L (normCond g.cond))).map
         (fun _ => createActual g),
       (match bps.find? (fun v => v.line == L) with
        | some b =>
          match b.logMessage with
          | some m =>
            if m ≠ "" then
              (st.inserts.filter (bpMatch L (normCond g.cond))).map
                (fun _ => (g.number, m))
            else []
          | none => []
        | none => []) ++ st.logMsgs⟩ := by
  simp only [phase1Step, hgl, hf, eq_self_iff_true, if_true]

/-- When the remaining desired keys are exactly the keys of the remaining
installed entries of the file (one-to-one), phase 1 marks nothing for
deletion, consumes every desired entry, and appends every installed entry
to the response in order. -/
theorem phase1_all_matched (file : String) (bps : List VsBreakpoint) :
    ∀ (gdbbps : List GdbBreakpoint) (st : Phase1State),
    (∀ g ∈ gdbbps, g.fullname = file ∧ g.line.isSome) →
    (∀ g ∈ gdbbps, ∃ v ∈ bps, v.line = g.line.getD 0) →
    (st.inserts.map vkey).Perm (gdbbps.map gkey) →
    (st.inserts.map vkey).Nodup →
    (phase1 file bps gdbbps st).deletes = st.deletes ∧
    (phase1 file bps gdbbps st).inserts = [] ∧
    (phase1 file bps gdbbps st).actual =
      st.actual ++ gdbbps.map createActual := by
  intro gdbbps
  induction gdbbps with
  | nil =>
    intro st _ _ hperm _
    have h0 : st.inserts.map vkey = [] := hperm.eq_nil
    have hins : st.inserts = [] := by
      cases hi : st.inserts with
      | nil => rfl
      | cons y ys => rw [hi] at h0; cases h0
    refine ⟨rfl, ?_, ?_⟩
    · rw [phase1]; exact hins
    · rw [phase1]; simp
  | cons g gs ih =>
    intro st hfl hlines hperm hnd
    obtain ⟨hgf, hgs⟩ := hfl g (List.mem_cons_self _ _)
    obtain ⟨L, hgl⟩ := Option.isSome_iff_exists.mp hgs
    have hgk : gkey g = (L, normCond g.cond) := by simp [gkey, hgl]
    obtain ⟨v0, hv0, hv0l⟩ := hlines g (List.mem_cons_self _ _)
    have hfindSome : (bps.find? (fun v => v.line == L)).isSome := by
      rw [List.find?_isSome]
      refine ⟨v0, hv0, ?_⟩
      simp [hv0l, hgl]
    have hfindNone : (bps.find? (fun v => v.line == L)).isNone = false := by
      cases hfq : bps.find? (fun v => v.line == L) with
      | none => simp [hfq] at hfindSome
      | some b => rfl
    have hkmem : ((L, normCond g.cond) : Nat × Option String) ∈
        st.inserts.map vkey := by
      apply hperm.mem_iff.mpr
      rw [List.map_cons, hgk]
      exact List.mem_cons_self _ _
    obtain ⟨a, hak, hmatched⟩ :=
      filter_eq_key_singleton vkey (L, normCond g.cond) st.inserts hnd hkmem
    have hmf : st.inserts.filter (bpMatch L (normCond g.cond)) = [a] := by
      have hfn : bpMatch L (normCond g.cond) =
          (fun v => decide (vkey v = (L, normCond g.cond))) := by
        funext v
        exact bpMatch_eq_decide L (normCond g.cond) v
      rw [hfn]
      exact hmatched
    have hfe : st.inserts.filter (fun v => !(bpMatch L (normCond g.cond) v)) =
        st.inserts.filter (fun v => !(decide (vkey v = (L, normCond g.cond)))) := by
      have hfn : (fun v => !(bpMatch L (normCond g.cond) v)) =
          (fun v => !(decide (vkey v = (L, normCond g.cond)))) := by
        funext v
        rw [bpMatch_eq_decide]
      rw [hfn]
    have hperm2 : ((st.inserts.filter
        (fun v => !(bpMatch L (normCond g.cond) v))).map vkey).Perm
        (gs.map gkey) := by
      rw [hfe, filter_ne_key_map vkey (L, normCond g.cond) st.inserts]
      have hperm3 : (st.inserts.map vkey).Perm
          ((L, normCond g.cond) :: gs.map gkey) := by
        rw [← hgk, ← List.map_cons]
        exact hperm
      have hsplit := nodup_perm_cons_filter ((L, normCond g.cond) :
        Nat × Option String) (st.inserts.map vkey) hnd hkmem
      exact (hsplit.symm.trans hperm3).cons_inv
    have hnd2 : ((st.inserts.filter
        (fun v => !(bpMatch L (normCond g.cond) v))).map vkey).Nodup :=
      List.Nodup.sublist ((List.filter_sublist _).map vkey) hnd
    rw [phase1, phase1Step_eq file bps st g L hgl hgf]
    obtain ⟨hd1, hi1, ha1⟩ := ih
      ⟨(if (bps.find? (fun v => v.line == L)).isNone
          then st.deletes ++ [g.number] else st.deletes),
       st.inserts.filter (fun v => !(bpMatch L (normCond g.cond) v)),
       st.actual ++ (st.inserts.filter (bpMatch L (normCond g.cond))).map
         (fun _ => createActual g),
       (match bps.find? (fun v => v.line == L) with
        | some b =>
          match b.logMessage with
          | some m =>
            if m ≠ "" then
              (st.inserts.filter (bpMatch L (normCond g.cond))).map
                (fun _ => (g.number, m))
            else []
          | none => []
        | none => []) ++ st.logMsgs⟩
      (fun g2 hg2 => hfl g2 (List.mem_cons_of_mem _ hg2))
      (fun g2 hg2 => hlines g2 (List.mem_cons_of_mem _ hg2)) hperm2 hnd2
    refine ⟨?_, hi1, ?_⟩
    · rw [hd1]
      simp [hfindNone]
    · rw [ha1]
      show (st.actual ++ (st.inserts.filter
          (bpMatch L (normCond g.cond))).map (fun _ => createActual g)) ++
          gs.map createActual =
        st.actual ++ (g :: gs).map createActual
      rw [hmf]
      simp

/-- C1: a set-breakpoints request whose desired set carries exactly the
lines and (normalised) conditions of the backend's installed set for the
file issues zero break-insert commands and zero break-delete commands, and
every installed entry is kept and contributes, in order, to the response. -/
theorem setBreakPointsRequest_idempotent (file : String)
    (bps : List VsBreakpoint) (gdbbps resps : List GdbBreakpoint)
    (hfile : ∀ g ∈ gdbbps, g.fullname = file ∧ g.line.isSome)
    (hperm : (bps.map vkey).Perm (gdbbps.map gkey))
    (hnodup : (bps.map vkey).Nodup) :
    ((setBreakPointsRequest file bps gdbbps resps).cmds.countP
      ReconCmd.isBreakInsert = 0) ∧
    ((setBreakPointsRequest file bps gdbbps resps).cmds.countP
      ReconCmd.isBreakDelete = 0) ∧
    (setBreakPointsRequest file bps gdbbps resps).actual =
      gdbbps.map createActual := by
  have hlines : ∀ g ∈ gdbbps, ∃ v ∈ bps, v.line = g.line.getD 0 := by
    intro g hg
    have h1 : gkey g ∈ gdbbps.map gkey := List.mem_map_of_mem _ hg
    have h2 : gkey g ∈ bps.map vkey := hperm.mem_iff.mpr h1
    obtain ⟨v, hv, hvk⟩ := List.mem_map.mp h2
    exact ⟨v, hv, congrArg Prod.fst hvk⟩
  obtain ⟨hdel, hins, hact⟩ := phase1_all_matched file bps gdbbps
    (phase1Init bps) hfile hlines hperm hnodup
  have hdel0 : (phase1 file bps gdbbps (phase1Init bps)).deletes = [] := hdel
  have hact0 : (phase1 file bps gdbbps (phase1Init bps)).actual =
      gdbbps.map createActual := by
    rw [hact]
    rfl
  have hcmds : (setBreakPointsRequest file bps gdbbps resps).cmds =
      ReconCmd.breakList ::
        (phase2 file (phase1 file bps gdbbps (phase1Init bps)).inserts
          resps).cmds ++
        (if (phase1 file bps gdbbps (phase1Init bps)).deletes.isEmpty then []
         else [ReconCmd.breakDelete
          (phase1 file bps gdbbps (phase1Init bps)).deletes]) := rfl
  have hacts : (setBreakPointsRequest file bps gdbbps resps).actual =
      (phase1 file bps gdbbps (phase1Init bps)).actual ++
        (phase2 file (phase1 file bps gdbbps (phase1Init bps)).inserts
          resps).actual := rfl
  refine ⟨?_, ?_, ?_⟩
  · rw [hcmds, hins, hdel0]
    simp [phase2, ReconCmd.isBreakInsert, List.countP_cons]
  · rw [hcmds, hins, hdel0]
    simp [phase2, ReconCmd.isBreakDelete, List.countP_cons]
  · rw [hacts, hins, hact0]
    simp [phase2]

/-- C1 witness: desired lines 10 (condition x) and 20 (no condition)
against installed breakpoints 1 at line 10 (condition x) and 2 at line 20
(empty condition): no insert, no delete, both installed entries kept. -/
theorem setBreakPointsRequest_idempotent_witness :
    ((setBreakPointsRequest "f.c"
       [⟨10, some "x", none, none⟩, ⟨20, none, none, none⟩]
       [⟨"1", "f.c", some 10, some "x"⟩, ⟨"2", "f.c", some 20, some ""⟩]
       []).cmds.countP ReconCmd.isBreakInsert = 0) ∧
    ((setBreakPointsRequest "f.c"
       [⟨10, some "x", none, none⟩, ⟨20, none, none, none⟩]
       [⟨"1", "f.c", some 10, some "x"⟩, ⟨"2", "f.c", some 20, some ""⟩]
       []).cmds.countP ReconCmd.isBreakDelete = 0) ∧
    (setBreakPointsRequest "f.c"
       [⟨10, some "x", none, none⟩, ⟨20, none, none, none⟩]
       [⟨"1", "f.c", some 10, some "x"⟩, ⟨"2", "f.c", some 20, some ""⟩]
       []).actual =
      [⟨"1", "f.c", some 10, some "x"⟩,
        ⟨"2", "f.c", some 20, some ""⟩].map createActual :=
  setBreakPointsRequest_idempotent "f.c"
    [⟨10, some "x", none, none⟩, ⟨20, none, none, none⟩]
    [⟨"1", "f.c", some 10, some "x"⟩, ⟨"2", "f.c", some 20, some ""⟩]
    [] (by decide) (by decide) (by decide)
